import Mathlib

/-
Verification of the Budge personal finance tracker.

The repository has two parallel implementations:
  * web  : utils.py (money codec), database.py (ledger store), app.py (routes);
  * CLI  : budgeter.py (Decimal-based codec, BudgetDB store, CloudSync engine).

Everything below is a shallow embedding translated from those sources.
Python-runtime and SQLite semantics that the sources rely on are embedded
explicitly and documented at each definition:
  * Python `int(str)` grammar (whitespace, sign, underscore grouping);
  * `decimal.Decimal` literal parsing, `quantize(Decimal("0.01"), ROUND_HALF_UP)`
    under the default context precision of 28 significant digits;
  * binary64 semantics of `cents / 100` (true division of ints is the
    correctly rounded double, OverflowError past the double range) and of
    `f"{x:.2f}"` (exact decimal value of the double rounded half-to-even
    to two fractional digits);
  * SQLite `ORDER BY` (modelled as a stable sort on the listed keys),
    `LIKE 'p%'` on digit/dash dates (prefix match), and `IN ()` with an
    empty list (documented by SQLite to match no row).
-/

set_option maxRecDepth 8000
set_option exponentiation.threshold 2000

/- Batteries marks the rational-number arithmetic `@[irreducible]`, which
blocks kernel evaluation of the concrete instances below; restore the
default reducibility for this development. -/
attribute [local semireducible] Rat.add Rat.mul Rat.inv Rat.sub

/-- Python exception values the modelled code can raise. -/
inductive PyErr
  | valueError (msg : String)
  | invalidOperation
  | overflowError
  deriving Repr, DecidableEq

instance {ε α : Type} [DecidableEq ε] [DecidableEq α] : DecidableEq (Except ε α) :=
  fun x y =>
    match x, y with
    | .ok a, .ok b =>
      if h : a = b then isTrue (by rw [h]) else isFalse (by intro hc; cases hc; exact h rfl)
    | .error a, .error b =>
      if h : a = b then isTrue (by rw [h]) else isFalse (by intro hc; cases hc; exact h rfl)
    | .ok _, .error _ => isFalse (by intro hc; cases hc)
    | .error _, .ok _ => isFalse (by intro hc; cases hc)

/-- The decimal digit character of `d` (used for `d < 10`): Python renders
numbers with the usual characters 48 + d. -/
def digitChar (d : ℕ) : Char := Char.ofNat (48 + d)

/-- Numeric value of a digit character. -/
def digitVal (c : Char) : ℕ := c.toNat - 48

/-- Value of a big-endian decimal digit string (callers check digit-ness
separately, mirroring Python which validates before converting). -/
def parseNat (l : List Char) : ℕ := l.foldl (fun a c => 10 * a + digitVal c) 0

/-- Little-endian decimal digits of `n`, with explicit fuel so that the
definition is structurally recursive (fuel `n` is always enough). -/
def natDigitsRev : ℕ → ℕ → List ℕ
  | 0, _ => []
  | fuel + 1, n => if n = 0 then [] else n % 10 :: natDigitsRev fuel (n / 10)

/-- Decimal digit string of a natural number, as Python `str`/`format`
render it (no sign, no grouping, `0` for zero). -/
def natToDec (n : ℕ) : List Char :=
  if n = 0 then ['0'] else ((natDigitsRev n n).map digitChar).reverse

/-- Python `f"{r:02d}"` for `0 ≤ r`: pad to two digits with a leading zero. -/
def pad2 (r : ℕ) : List Char := if r < 10 then '0' :: natToDec r else natToDec r

/-- ASCII whitespace stripped by Python's `int()`/`Decimal()` constructors
(non-ASCII whitespace is not modelled). -/
def isPyWs (c : Char) : Bool :=
  c = ' ' || c = '\t' || c = '\n' || c = '\r' || c = '\x0b' || c = '\x0c'

/-- `str.strip()` as applied implicitly by `int()`/`Decimal()`. -/
def stripWs (l : List Char) : List Char :=
  ((l.dropWhile isPyWs).reverse.dropWhile isPyWs).reverse

/-- `amount_str.replace(",", "").replace("$", "")` from utils.to_cents:
removes every comma and dollar sign. -/
def stripCurrency (l : List Char) : List Char :=
  l.filter (fun c => !(c = ',' || c = '$'))

/-- Python `s.split(".")`: fields between the dots, empties kept. -/
def splitOnDot : List Char → List (List Char)
  | [] => [[]]
  | c :: rest =>
    if c = '.' then [] :: splitOnDot rest
    else
      match splitOnDot rest with
      | [] => [[c]]
      | p :: ps => (c :: p) :: ps

/-- After the first digit of a Python integer literal: digits with single
underscores allowed between digits (`1_000` is legal, `1__0`/`1_` are not). -/
def undRest : List Char → Bool
  | [] => true
  | c :: rest =>
    if c = '_' then
      match rest with
      | [] => false
      | d :: r2 => d.isDigit && undRest r2
    else c.isDigit && undRest rest

/-- Body of a Python integer literal (after sign): nonempty, starts with a
digit, single underscores only between digits. -/
def validUnd (l : List Char) : Bool :=
  match l with
  | [] => false
  | c :: rest => c.isDigit && undRest rest

/-- Python `int(str)`: optional surrounding whitespace, one optional sign,
then decimal digits with underscore grouping.  Raises ValueError otherwise.
(Non-ASCII digits and whitespace are not modelled.) -/
def pyInt (l : List Char) : Except PyErr Int :=
  let t := stripWs l
  let s : Int × List Char :=
    if t.head? = some '-' then (-1, t.tail)
    else if t.head? = some '+' then (1, t.tail)
    else (1, t)
  if validUnd s.2 then .ok (s.1 * (parseNat (s.2.filter (fun c => !(c = '_'))) : ℤ))
  else .error (.valueError "invalid literal for int")

/-- Absolute value on ℚ, written so that the kernel evaluates it. -/
def qabs (q : ℚ) : ℚ := if q < 0 then -q else q

/-- Round half to even (the rounding of IEEE binary64 operations and of
Python's float formatting).  `Rat.floor` is used (rather than the `⌊⌋`
notation) so that the kernel can evaluate concrete instances. -/
def rhe (q : ℚ) : ℤ :=
  let f := q.floor
  if q - (f : ℚ) < 1 / 2 then f
  else if (1 : ℚ) / 2 < q - (f : ℚ) then f + 1
  else if f % 2 = 0 then f else f + 1

/-- Round half away from zero (`decimal.ROUND_HALF_UP`). -/
def rhalfAway (q : ℚ) : ℤ :=
  if 0 ≤ q then (q + 1 / 2).floor else -((-q + 1 / 2).floor)

/-- `⌊log2 n⌋` with explicit fuel (structural recursion, kernel-reducible). -/
def log2fuel : ℕ → ℕ → ℕ
  | 0, _ => 0
  | fuel + 1, n => if 2 ≤ n then log2fuel fuel (n / 2) + 1 else 0

/-- `⌊log2 n⌋` for `n ≥ 1`. -/
def nlog2 (n : ℕ) : ℕ := log2fuel n n

/-- Smallest `k` (starting from the given one) with `1 ≤ q * 2 ^ k`. -/
def scaleUp (q : ℚ) : ℕ → ℕ → ℕ
  | _, 0 => 0
  | k, fuel + 1 => if 1 ≤ q * 2 ^ k then k else scaleUp q (k + 1) fuel

/-- Binade exponent of a positive rational: `2 ^ e ≤ q < 2 ^ (e + 1)`.
1200 steps of fuel cover the whole double range. -/
def floatExp (q : ℚ) : ℤ :=
  if 1 ≤ q then (nlog2 q.floor.toNat : ℤ) else -(scaleUp q 1 1200 : ℤ)

/-- The IEEE binary64 value nearest to `q` (53-bit mantissa, round half to
even), returned as an exact rational; OverflowError once the rounded
magnitude reaches `2 ^ 1024`.  This is the value Python's true division
`cents / 100` produces (CPython raises OverflowError when an int/int
quotient exceeds the double range).  Subnormal underflow is not modelled:
the inputs used here are `c / 100` with `|c| ≥ 1`, far above it. -/
def pyFloat64 (q : ℚ) : Except PyErr ℚ :=
  if q = 0 then .ok 0
  else
    let a := qabs q
    let e := floatExp a
    let v : ℚ :=
      if e ≤ 52 then (rhe (a * ((2 ^ (52 - e).toNat : ℕ) : ℚ)) : ℚ) / ((2 ^ (52 - e).toNat : ℕ) : ℚ)
      else (rhe (a / ((2 ^ (e - 52).toNat : ℕ) : ℚ)) : ℚ) * ((2 ^ (e - 52).toNat : ℕ) : ℚ)
    if ((2 ^ 1024 : ℕ) : ℚ) ≤ v then .error .overflowError
    else .ok (if q < 0 then -v else v)

/-- Python `f"{x:.2f}"` applied to the exact value `x` of a finite double:
the exact decimal value is rounded half-to-even to two fractional digits;
the sign of a negative `x` is kept even when the digits round to zero. -/
def fmt2f (x : ℚ) : List Char :=
  let n := (rhe (qabs x * 100)).toNat
  (if x < 0 then ['-'] else []) ++ natToDec (n / 100) ++ '.' :: pad2 (n % 100)

/-- A ledger transaction (database.py `transactions` table / budgeter.py
`_row_to_dict`).  `ttype` is the `type` column. -/
structure Tx where
  id : ℕ
  iso_date : String
  amount_cents : ℤ
  ttype : String
  category : String
  description : String
  created_at : String
  synced : Bool
  deriving Repr, DecidableEq

/-- `pre` is a prefix of `l` (SQLite `LIKE 'pre%'` on the digit/dash dates
used here; LIKE's ASCII case-insensitivity is immaterial for digits). -/
def isPrefixL : List Char → List Char → Bool
  | [], _ => true
  | _ :: _, [] => false
  | a :: as, b :: bs => a = b && isPrefixL as bs

/-- Code-point lexicographic ≤ on char lists: SQLite's BINARY collation
comparing the ASCII `YYYY-MM-DD` date strings byte by byte. -/
def lexLe : List Char → List Char → Bool
  | [], _ => true
  | _ :: _, [] => false
  | a :: as, b :: bs => if a = b then lexLe as bs else decide (a.toNat < b.toNat)

namespace Utils

/-- utils.to_cents after the sign has been handled; `m` is the Python
`multiplier` (±1).  Mirrors: no dot → `int(s) * 100 * multiplier`;
one dot → length check on the fractional part, then
`(int(dollars) * 100 + int(cents)) * multiplier`; several dots → the
ValueError of unpacking `dollars, cents = amount_str.split(".")`. -/
def toCentsTail (l2 : List Char) (m : Int) : Except PyErr Int :=
  if !(l2.contains '.') then (pyInt l2).map (fun n => n * 100 * m)
  else
    match splitOnDot l2 with
    | [d, c] =>
      if c.length ≠ 2 then .error (.valueError "Amount must have two decimal places")
      else do
        let dv ← pyInt d
        let cv ← pyInt c
        .ok ((dv * 100 + cv) * m)
    | _ => .error (.valueError "too many values to unpack")

/-- utils.to_cents: empty string returns 0; commas and dollar signs are
removed; a leading '-' sets the multiplier; then the fractional-part rules
of `toCentsTail`. -/
def to_cents (s : String) : Except PyErr Int :=
  if s.data = [] then .ok 0
  else
    let l1 := stripCurrency s.data
    if l1.head? = some '-' then toCentsTail l1.tail (-1) else toCentsTail l1 1

/-- utils.cents_to_str: `""` for None, else `f"{cents / 100:.2f}"` — the
division is binary64 (may raise OverflowError), the formatting is `fmt2f`. -/
def cents_to_str (c : Option Int) : Except PyErr String :=
  match c with
  | none => .ok ""
  | some c => (pyFloat64 ((c : ℚ) / 100)).map (fun x => String.mk (fmt2f x))

end Utils

namespace Budgeter

/-- Value of a `decimal.Decimal` literal: optional whitespace, one optional
sign, digits with an optional dot (`"5."` and `".5"` are legal, `"."` and
`""` are not).  Exponent forms, NaN/Infinity literals and underscore
grouping are not modelled (no input in this development uses them).
Currency symbols and commas are, faithfully, *not* accepted. -/
def decValue (l : List Char) : Option ℚ :=
  let t := stripWs l
  let s : ℚ × List Char :=
    if t.head? = some '-' then (-1, t.tail)
    else if t.head? = some '+' then (1, t.tail)
    else (1, t)
  match splitOnDot s.2 with
  | [ip] =>
    if ip ≠ [] ∧ ip.all Char.isDigit then some (s.1 * parseNat ip) else none
  | [ip, fp] =>
    if (ip ++ fp) ≠ [] ∧ (ip ++ fp).all Char.isDigit then
      some (s.1 * ((parseNat ip : ℚ) + (parseNat fp : ℚ) / 10 ^ fp.length))
    else none
  | _ => none

/-- budgeter.to_cents: `Decimal(amount_str).quantize(Decimal("0.01"),
ROUND_HALF_UP)` then `int((dec * 100).to_integral_value(ROUND_HALF_UP))`.
The quantize result has coefficient `rhalfAway (v * 100)`; under the
default context (precision 28) quantize raises InvalidOperation when that
coefficient needs more than 28 digits.  The subsequent `* 100` only
appends zeros that the context rounding removes again, so it is exact. -/
def to_cents (s : String) : Except PyErr Int :=
  match decValue s.data with
  | none => .error .invalidOperation
  | some v =>
    let n := rhalfAway (v * 100)
    if 10 ^ 28 ≤ n.natAbs then .error .invalidOperation else .ok n

/-- budgeter.cents_to_str: sign, `abs // 100`, a dot, `f"{abs % 100:02d}"`.
Pure integer arithmetic. -/
def cents_to_str (c : ℤ) : String :=
  String.mk ((if c < 0 then ['-'] else []) ++
    natToDec (c.natAbs / 100) ++ '.' :: pad2 (c.natAbs % 100))

/-- Ascending-id order of `SELECT ... ORDER BY id ASC`. -/
def idLe (a b : Tx) : Prop := a.id ≤ b.id

instance : DecidableRel idLe := fun a b => inferInstanceAs (Decidable (a.id ≤ b.id))

instance : IsTotal Tx idLe := ⟨fun a b => Nat.le_total a.id b.id⟩

instance : IsTrans Tx idLe := ⟨fun _ _ _ h h2 => Nat.le_trans h h2⟩

/-- BudgetDB.unsynced: rows with `synced = 0`, ordered by id ascending. -/
def unsynced (db : List Tx) : List Tx :=
  List.insertionSort idLe (db.filter (fun t => !t.synced))

/-- BudgetDB.mark_synced: early return on an empty list, else
`UPDATE ... SET synced = 1 WHERE id IN (...)`. -/
def mark_synced (ids : List ℕ) (db : List Tx) : List Tx :=
  if ids = [] then db
  else db.map (fun t => if t.id ∈ ids then { t with synced := true } else t)

/-- Outcome of one `requests.put`: an HTTP status, or a raised exception. -/
inductive PushOutcome
  | status (code : ℕ)
  | exn
  deriving Repr, DecidableEq

/-- firebase_sync treats a push as confirmed iff `status_code in (200, 201)`;
a transport exception is caught and counts as failed. -/
def acceptsB : PushOutcome → Bool
  | .status c => c = 200 || c = 201
  | .exn => false

/-- Result dictionary of CloudSync.firebase_sync.  `done attempted confirmed`
also records, for the analysis, the ids for which a PUT was issued (the
loop issues one per unsynced row, in order); the source dict reports
`ok/synced/ids`, i.e. the `confirmed` component. -/
inductive FBReport
  | notConfigured
  | nothingToSync
  | done (attempted confirmed : List ℕ)
  deriving Repr, DecidableEq

/-- CloudSync.firebase_sync.  The network is abstracted as `sink`, mapping
the idempotency key (the local id, used in the PUT url
`{base}/transactions/{id}.json`) to the sink's response; the payload does
not influence acceptance.  Empty `firebase_url` → not configured; no
unsynced rows → nothing to sync; otherwise one PUT per unsynced row in
order, failures are printed and skipped, and `mark_synced` is called once
at the end with the confirmed ids (if any). -/
def firebase_sync (base : String) (sink : ℕ → PushOutcome) (db : List Tx) :
    FBReport × List Tx :=
  if base = "" then (.notConfigured, db)
  else
    let u := unsynced db
    if u = [] then (.nothingToSync, db)
    else
      let confirmed := (u.filter (fun t => acceptsB (sink t.id))).map Tx.id
      (.done (u.map Tx.id) confirmed,
        if confirmed = [] then db else mark_synced confirmed db)

/-- Date-descending order of `ORDER BY iso_date DESC` (no further key). -/
def dateOrd (a b : Tx) : Prop := lexLe b.iso_date.data a.iso_date.data = true

instance : DecidableRel dateOrd :=
  fun a b => inferInstanceAs (Decidable (_ = true))

/-- BudgetDB.find_transactions: optional start/end/category filters
(`iso_date >= ?`, `iso_date <= ?`, `category = ?`), then
`ORDER BY iso_date DESC` — date is the only sort key, so equal-date rows
are left in store order (SQLite does not specify their order; a stable
sort over the scan is the realization modelled here). -/
def find_transactions (db : List Tx) (sd ed cat : Option String) : List Tx :=
  let f1 := match sd with
    | some s => db.filter (fun t => lexLe s.data t.iso_date.data)
    | none => db
  let f2 := match ed with
    | some e => f1.filter (fun t => lexLe t.iso_date.data e.data)
    | none => f1
  let f3 := match cat with
    | some c => f2.filter (fun t => t.category = c)
    | none => f2
  List.insertionSort dateOrd f3

end Budgeter

namespace Database

/-- Web `ORDER BY iso_date DESC, id DESC` as a "comes no later than"
relation. -/
def txOrd (a b : Tx) : Prop :=
  (b.iso_date.data ≠ a.iso_date.data ∧ lexLe b.iso_date.data a.iso_date.data = true)
  ∨ (b.iso_date.data = a.iso_date.data ∧ b.id ≤ a.id)

instance : DecidableRel txOrd := fun a b =>
  inferInstanceAs (Decidable ((_ ∧ _) ∨ (_ ∧ _)))

/-- database.list_txs: optional `iso_date LIKE 'month%'` filter, then
`ORDER BY iso_date DESC, id DESC LIMIT limit` (source default limit 500). -/
def list_txs (db : List Tx) (limit : ℕ) (month : Option String) : List Tx :=
  (List.insertionSort txOrd
    (match month with
     | some m => db.filter (fun t => isPrefixL m.data t.iso_date.data)
     | none => db)).take limit

/-- database.update_tx: `UPDATE transactions SET iso_date=?, amount_cents=?,
type=?, category=?, description=? WHERE id=?`.  An absent id matches no row
— SQL UPDATE then succeeds silently (no rowcount check, nothing raised).
`synced` and `created_at` are not in the SET list. -/
def update_tx (db : List Tx) (txid : ℕ) (d : String) (a : ℤ)
    (ty cat de : String) : List Tx :=
  db.map (fun t =>
    if t.id = txid then
      { t with iso_date := d, amount_cents := a, ttype := ty,
               category := cat, description := de }
    else t)

/-- database.delete_tx: `DELETE FROM transactions WHERE id = ?`. -/
def delete_tx (db : List Tx) (txid : ℕ) : List Tx :=
  db.filter (fun t => !(t.id = txid))

/-- database.mark_synced: `UPDATE transactions SET synced = TRUE WHERE id IN
(?,...)` — with an empty ids list the SQL is `... WHERE id IN ()`, which
SQLite accepts and documents as matching no row, so the call is a no-op
(no exception); there is no early-return guard as in the CLI store. -/
def mark_synced (ids : List ℕ) (db : List Tx) : List Tx :=
  db.map (fun t => if t.id ∈ ids then { t with synced := true } else t)

/-- database.unsynced_txs: `SELECT * ... WHERE synced = FALSE` (no ORDER BY;
scan order). -/
def unsynced_txs (db : List Tx) : List Tx := db.filter (fun t => !t.synced)

/-- database.monthly_summary: `SELECT category, SUM(amount_cents) ... WHERE
iso_date LIKE 'month%' AND type = 'expense' GROUP BY category`, returned as
a dict.  One entry per distinct category among the matching rows; the
order of groups is irrelevant to the dict lookups modelled below. -/
def monthly_summary (db : List Tx) (m : String) : List (String × ℤ) :=
  let ms := db.filter (fun t =>
    isPrefixL m.data t.iso_date.data && t.ttype == "expense")
  ((ms.map Tx.category).dedup).map (fun c =>
    (c, ((ms.filter (fun t => t.category == c)).map Tx.amount_cents).sum))

/-- Python dict lookup on the association list built by `monthly_summary`. -/
def dictFind (c : String) : List (String × ℤ) → Option ℤ
  | [] => none
  | (k, v) :: rest => if k = c then some v else dictFind c rest

/-- app.py `/clear_all`: `DELETE FROM transactions`. -/
def clear_all (_db : List Tx) : List Tx := []

/-- Web ledger state: the rows plus the AUTOINCREMENT high-water mark of
`sqlite_sequence` (ids are assigned above it and never reused, even after
DELETE). -/
structure WebStore where
  rows : List Tx
  seq : ℕ
  deriving Repr, DecidableEq

/-- The store operations of the web layer (the `created` argument of `add`
is the CURRENT_TIMESTAMP captured at the insert). -/
inductive Op
  | add (iso_date : String) (amount : ℤ) (ttype cat de created : String)
  | update (id : ℕ) (iso_date : String) (amount : ℤ) (ttype cat de : String)
  | delete (id : ℕ)
  | markSynced (ids : List ℕ)
  | clearAll
  deriving Repr, DecidableEq

/-- One step of the web store.  `add` inserts with `synced = FALSE` (the
column default) and the captured timestamp; `DELETE FROM` does not reset
the AUTOINCREMENT sequence. -/
def applyOp (s : WebStore) : Op → WebStore
  | .add d a ty cat de created =>
    { rows := s.rows ++ [⟨s.seq + 1, d, a, ty, cat, de, created, false⟩],
      seq := s.seq + 1 }
  | .update i d a ty cat de => { s with rows := update_tx s.rows i d a ty cat de }
  | .delete i => { s with rows := delete_tx s.rows i }
  | .markSynced ids => { s with rows := mark_synced ids s.rows }
  | .clearAll => { s with rows := clear_all s.rows }

/-- `SELECT * FROM transactions WHERE id = ?` (first match). -/
def findTx (s : WebStore) (i : ℕ) : Option Tx := s.rows.find? (fun t => t.id = i)

/-- Well-formed web store: every id is at or below the sequence high-water
mark (true of every store SQLite builds, since ids come from the sequence). -/
def WF (s : WebStore) : Prop := ∀ t ∈ s.rows, t.id ≤ s.seq

end Database

/-- Checks the money string shape of §4.1: optional '-', nonempty integer
digits, '.', exactly two fractional digits. -/
def moneyShape (l : List Char) : Bool :=
  let l1 := if l.head? = some '-' then l.tail else l
  match splitOnDot l1 with
  | [a, b] => !a.isEmpty && a.all Char.isDigit && (b.length = 2) && b.all Char.isDigit
  | _ => false

/- Concrete rows and sinks used by the per-claim instances below. -/

/-- Expense, 2025-01-01, id 1. -/
def txA : Tx := ⟨1, "2025-01-01", 100, "expense", "Food", "", "c1", false⟩

/-- Expense, 2025-01-01, id 2 (same date as `txA`). -/
def txB : Tx := ⟨2, "2025-01-01", 200, "expense", "Food", "", "c2", false⟩

/-- Income, 2025-01-02, id 3. -/
def txC : Tx := ⟨3, "2025-01-02", 300, "income", "Pay", "", "c3", false⟩

/-- Expense, 2025-03-03, id 1 (same date as `txE`). -/
def txD : Tx := ⟨1, "2025-03-03", 100, "expense", "Food", "", "d1", false⟩

/-- Expense, 2025-03-03, id 2. -/
def txE : Tx := ⟨2, "2025-03-03", 200, "expense", "Food", "", "d2", false⟩

/-- Groceries expense of 150 cents in 2025-01. -/
def grocery1 : Tx := ⟨1, "2025-01-05", 150, "expense", "Groceries", "", "c", false⟩

/-- Groceries expense of 250 cents in 2025-01. -/
def grocery2 : Tx := ⟨2, "2025-01-20", 250, "expense", "Groceries", "", "c", false⟩

/-- Income row in 2025-01 (excluded from expense summaries). -/
def incomeTx : Tx := ⟨3, "2025-01-10", 5000, "income", "Groceries", "", "c", false⟩

/-- Groceries expense in another month (excluded by the month filter). -/
def otherMonthTx : Tx := ⟨4, "2025-02-01", 999, "expense", "Groceries", "", "c", false⟩

/-- Sink responding 500 to id 2 and 200 otherwise (spec §8's sync example). -/
def sinkW : ℕ → Budgeter.PushOutcome := fun i => if i = 2 then .status 500 else .status 200

/-- A sink that accepts everything (used for the hypothetical second run). -/
def sinkOk : ℕ → Budgeter.PushOutcome := fun _ => .status 200

/- ------------------------------------------------------------------ -/
/- Helper lemmas: characters, digit strings, parsing.                  -/

theorem ne_of_isDigit {c x : Char} (h : c.isDigit = true) (hx : x.isDigit = false) :
    c ≠ x := by
  intro e
  rw [e] at h
  simp [h] at hx

theorem isPyWs_of_digit {c : Char} (h : c.isDigit = true) : isPyWs c = false := by
  have h1 := ne_of_isDigit h (show (' ').isDigit = false by decide)
  have h2 := ne_of_isDigit h (show ('\t').isDigit = false by decide)
  have h3 := ne_of_isDigit h (show ('\n').isDigit = false by decide)
  have h4 := ne_of_isDigit h (show ('\r').isDigit = false by decide)
  have h5 := ne_of_isDigit h (show ('\x0b').isDigit = false by decide)
  have h6 := ne_of_isDigit h (show ('\x0c').isDigit = false by decide)
  simp [isPyWs, h1, h2, h3, h4, h5, h6]

theorem digitChar_isDigit {d : ℕ} (h : d < 10) : (digitChar d).isDigit = true := by
  interval_cases d <;> decide

theorem digitVal_digitChar {d : ℕ} (h : d < 10) : digitVal (digitChar d) = d := by
  interval_cases d <;> decide

theorem natDigitsRev_zero (fuel : ℕ) : natDigitsRev fuel 0 = [] := by
  cases fuel <;> simp [natDigitsRev]

theorem natDigitsRev_mem_lt :
    ∀ (fuel n : ℕ) {d : ℕ}, d ∈ natDigitsRev fuel n → d < 10 := by
  intro fuel
  induction fuel with
  | zero => intro n d h; simp [natDigitsRev] at h
  | succ f ih =>
    intro n d h
    by_cases hn : n = 0
    · simp [natDigitsRev, hn] at h
    · simp only [natDigitsRev, if_neg hn, List.mem_cons] at h
      rcases h with h | h
      · omega
      · exact ih _ h

theorem ofDigits_natDigitsRev :
    ∀ fuel n : ℕ, n ≤ fuel → Nat.ofDigits 10 (natDigitsRev fuel n) = n := by
  intro fuel
  induction fuel with
  | zero => intro n h; interval_cases n; simp [natDigitsRev]
  | succ f ih =>
    intro n h
    by_cases hn : n = 0
    · simp [natDigitsRev, hn]
    · have hd : n / 10 ≤ f := by omega
      simp only [natDigitsRev, if_neg hn, Nat.ofDigits_cons, ih _ hd]
      omega

theorem foldl_digits (L : List ℕ) (hL : ∀ d ∈ L, d < 10) (a : ℕ) :
    ((L.map digitChar).reverse).foldl (fun x c => 10 * x + digitVal c) a
      = a * 10 ^ L.length + Nat.ofDigits 10 L := by
  induction L generalizing a with
  | nil => simp
  | cons d T ih =>
    have hd : d < 10 := hL d (List.mem_cons_self d T)
    have hT : ∀ x ∈ T, x < 10 := fun x hx => hL x (List.mem_cons_of_mem d hx)
    simp only [List.map_cons, List.reverse_cons, List.foldl_append, ih hT a,
      List.foldl_cons, List.foldl_nil, Nat.ofDigits_cons, List.length_cons,
      digitVal_digitChar hd]
    ring

theorem parseNat_natToDec (n : ℕ) : parseNat (natToDec n) = n := by
  by_cases hn : n = 0
  · subst hn; decide
  · have h1 := foldl_digits (natDigitsRev n n) (fun d hd => natDigitsRev_mem_lt n n hd) 0
    have h2 := ofDigits_natDigitsRev n n le_rfl
    simp only [natToDec, if_neg hn, parseNat, h1, h2, Nat.zero_mul, Nat.zero_add]

theorem natToDec_all_digits {n : ℕ} : ∀ c ∈ natToDec n, c.isDigit = true := by
  intro c hc
  by_cases hn : n = 0
  · subst hn; simp [natToDec] at hc; subst hc; decide
  · simp only [natToDec, if_neg hn, List.mem_reverse, List.mem_map] at hc
    obtain ⟨d, hd, rfl⟩ := hc
    exact digitChar_isDigit (natDigitsRev_mem_lt n n hd)

theorem natToDec_ne_nil (n : ℕ) : natToDec n ≠ [] := by
  by_cases hn : n = 0
  · subst hn; decide
  · obtain ⟨m, rfl⟩ := Nat.exists_eq_succ_of_ne_zero hn
    simp [natToDec, natDigitsRev, hn]

theorem natDigitsRev_small {fuel n : ℕ} (h0 : n ≠ 0) (h10 : n < 10) (hf : n ≤ fuel) :
    natDigitsRev fuel n = [n] := by
  cases fuel with
  | zero => omega
  | succ f =>
    have : n / 10 = 0 := by omega
    simp [natDigitsRev, h0, this, natDigitsRev_zero, Nat.mod_eq_of_lt h10]

theorem natDigitsRev_two {fuel n : ℕ} (h10 : 10 ≤ n) (h100 : n < 100) (hf : n ≤ fuel) :
    natDigitsRev fuel n = [n % 10, n / 10] := by
  cases fuel with
  | zero => omega
  | succ f =>
    have h0 : n ≠ 0 := by omega
    have hd0 : n / 10 ≠ 0 := by omega
    have hd10 : n / 10 < 10 := by omega
    have hdf : n / 10 ≤ f := by omega
    simp [natDigitsRev, h0, natDigitsRev_small hd0 hd10 hdf]

theorem natToDec_len1 {n : ℕ} (h : n < 10) : (natToDec n).length = 1 := by
  by_cases hn : n = 0
  · subst hn; decide
  · simp [natToDec, hn, natDigitsRev_small hn h le_rfl]

theorem pad2_length {r : ℕ} (h : r < 100) : (pad2 r).length = 2 := by
  by_cases h10 : r < 10
  · simp [pad2, h10, natToDec_len1 h10]
  · have hr : 10 ≤ r := by omega
    have h0 : r ≠ 0 := by omega
    simp [pad2, h10, natToDec, h0, natDigitsRev_two hr h le_rfl]

theorem parseNat_cons_zero (l : List Char) : parseNat ('0' :: l) = parseNat l := rfl

theorem pad2_parse {r : ℕ} (h : r < 100) : parseNat (pad2 r) = r := by
  by_cases h10 : r < 10
  · simp [pad2, h10, parseNat_cons_zero, parseNat_natToDec]
  · simp [pad2, h10, parseNat_natToDec]

theorem pad2_all_digits {r : ℕ} : ∀ c ∈ pad2 r, c.isDigit = true := by
  intro c hc
  by_cases h10 : r < 10
  · simp only [pad2, if_pos h10, List.mem_cons] at hc
    rcases hc with rfl | hc
    · decide
    · exact natToDec_all_digits c hc
  · simp only [pad2, if_neg h10] at hc
    exact natToDec_all_digits c hc

theorem pad2_ne_nil (r : ℕ) : pad2 r ≠ [] := by
  by_cases h10 : r < 10
  · simp [pad2, h10]
  · simp [pad2, h10, natToDec_ne_nil]

theorem dropWhile_eq_self_of {p : Char → Bool} {l : List Char}
    (h : ∀ c ∈ l, p c = false) : l.dropWhile p = l := by
  cases l with
  | nil => rfl
  | cons c rest => simp [List.dropWhile, h c (List.mem_cons_self c rest)]

theorem stripWs_eq_self {l : List Char} (h : ∀ c ∈ l, isPyWs c = false) :
    stripWs l = l := by
  unfold stripWs
  rw [dropWhile_eq_self_of h,
    dropWhile_eq_self_of (fun c hc => h c (List.mem_reverse.mp hc)),
    List.reverse_reverse]

theorem stripCurrency_eq_self {l : List Char} (h : ∀ c ∈ l, c ≠ ',' ∧ c ≠ '$') :
    stripCurrency l = l := by
  apply List.filter_eq_self.mpr
  intro a ha
  simp [(h a ha).1, (h a ha).2]

theorem contains_eq_false {l : List Char} {a : Char} (h : a ∉ l) :
    l.contains a = false := by
  simpa using h

theorem splitOnDot_no_dot {l : List Char} (h : '.' ∉ l) : splitOnDot l = [l] := by
  induction l with
  | nil => rfl
  | cons c rest ih =>
    have hc : c ≠ '.' := fun e => h (e ▸ List.mem_cons_self c rest)
    have hr : '.' ∉ rest := fun e => h (List.mem_cons_of_mem c e)
    simp [splitOnDot, hc, ih hr]

theorem splitOnDot_append {A : List Char} (B : List Char) (hA : '.' ∉ A) :
    splitOnDot (A ++ '.' :: B) = A :: splitOnDot B := by
  induction A with
  | nil => simp [splitOnDot]
  | cons a A' ih =>
    have ha : a ≠ '.' := fun e => hA (e ▸ List.mem_cons_self a A')
    have hr : '.' ∉ A' := fun e => hA (List.mem_cons_of_mem a e)
    simp only [List.cons_append, splitOnDot, if_neg ha]
    rw [show A'.append ('.' :: B) = A' ++ '.' :: B from rfl, ih hr]

theorem undRest_digits {l : List Char} (h : ∀ c ∈ l, c.isDigit = true) :
    undRest l = true := by
  induction l with
  | nil => rfl
  | cons c rest ih =>
    have hc := h c (List.mem_cons_self c rest)
    have hu : c ≠ '_' := ne_of_isDigit hc (by decide)
    unfold undRest
    rw [if_neg hu, hc, ih (fun x hx => h x (List.mem_cons_of_mem c hx))]
    rfl

theorem validUnd_digits {l : List Char} (hne : l ≠ [])
    (h : ∀ c ∈ l, c.isDigit = true) : validUnd l = true := by
  cases l with
  | nil => exact absurd rfl hne
  | cons c rest =>
    simp [validUnd, h c (List.mem_cons_self c rest),
      undRest_digits (fun x hx => h x (List.mem_cons_of_mem c hx))]

theorem filter_underscore {l : List Char} (h : ∀ c ∈ l, c.isDigit = true) :
    l.filter (fun c => !(c = '_')) = l := by
  apply List.filter_eq_self.mpr
  intro a ha
  simp [ne_of_isDigit (h a ha) (show ('_').isDigit = false by decide)]

theorem head_digit_ne {l : List Char} (h : ∀ c ∈ l, c.isDigit = true)
    {x : Char} (hx : x.isDigit = false) : l.head? ≠ some x := by
  cases l with
  | nil => simp
  | cons c rest =>
    simp only [List.head?_cons, ne_eq, Option.some.injEq]
    intro e
    exact ne_of_isDigit (h c (List.mem_cons_self c rest)) hx e

theorem pyInt_natToDec (n : ℕ) : pyInt (natToDec n) = .ok (n : ℤ) := by
  have hdig : ∀ c ∈ natToDec n, c.isDigit = true := natToDec_all_digits
  have hws : stripWs (natToDec n) = natToDec n :=
    stripWs_eq_self (fun c hc => isPyWs_of_digit (hdig c hc))
  have hminus : (natToDec n).head? ≠ some '-' := head_digit_ne hdig (by decide)
  have hplus : (natToDec n).head? ≠ some '+' := head_digit_ne hdig (by decide)
  simp only [pyInt, hws, if_neg hminus, if_neg hplus,
    validUnd_digits (natToDec_ne_nil n) hdig, if_pos, filter_underscore hdig,
    parseNat_natToDec, one_mul]

theorem contains_eq_true {l : List Char} {a : Char} (h : a ∈ l) :
    l.contains a = true := by
  simpa using h

theorem chars_clean_of_digits {l : List Char} (h : ∀ c ∈ l, c.isDigit = true) :
    ∀ c ∈ l, c ≠ ',' ∧ c ≠ '$' := fun c hc =>
  ⟨ne_of_isDigit (h c hc) (by decide), ne_of_isDigit (h c hc) (by decide)⟩

theorem head?_append_of_ne_nil {A B : List Char} (h : A ≠ []) :
    (A ++ B).head? = A.head? := by
  cases A with
  | nil => exact absurd rfl h
  | cons a as => rfl

theorem pyInt_pad2 {r : ℕ} (hr : r < 100) : pyInt (pad2 r) = .ok (r : ℤ) := by
  have hdig : ∀ c ∈ pad2 r, c.isDigit = true := pad2_all_digits
  have hws : stripWs (pad2 r) = pad2 r :=
    stripWs_eq_self (fun c hc => isPyWs_of_digit (hdig c hc))
  have hminus : (pad2 r).head? ≠ some '-' := head_digit_ne hdig (by decide)
  have hplus : (pad2 r).head? ≠ some '+' := head_digit_ne hdig (by decide)
  simp only [pyInt, hws, if_neg hminus, if_neg hplus,
    validUnd_digits (pad2_ne_nil r) hdig, if_pos, filter_underscore hdig,
    pad2_parse hr, one_mul]

theorem dot_not_mem_digits {l : List Char} (h : ∀ c ∈ l, c.isDigit = true) :
    '.' ∉ l := fun hc => by simpa using h '.' hc

theorem toCentsTail_digits (d : ℕ) (m : Int) :
    Utils.toCentsTail (natToDec d) m = .ok ((d : ℤ) * 100 * m) := by
  have hnd : '.' ∉ natToDec d := dot_not_mem_digits natToDec_all_digits
  simp only [Utils.toCentsTail, contains_eq_false hnd, Bool.not_false, if_pos,
    pyInt_natToDec]
  rfl

theorem toCentsTail_frac (d r : ℕ) (hr : r < 100) (m : Int) :
    Utils.toCentsTail (natToDec d ++ '.' :: pad2 r) m
      = .ok (((d : ℤ) * 100 + (r : ℤ)) * m) := by
  have hmem : '.' ∈ natToDec d ++ '.' :: pad2 r :=
    List.mem_append_right _ (List.mem_cons_self _ _)
  have hnd : '.' ∉ natToDec d := dot_not_mem_digits natToDec_all_digits
  have hnp : '.' ∉ pad2 r := dot_not_mem_digits pad2_all_digits
  have hsplit : splitOnDot (natToDec d ++ '.' :: pad2 r) = [natToDec d, pad2 r] := by
    rw [splitOnDot_append _ hnd, splitOnDot_no_dot hnp]
  have hlen : ¬((pad2 r).length ≠ 2) := by rw [pad2_length hr]; omega
  simp only [Utils.toCentsTail, contains_eq_true hmem, Bool.not_true,
    Bool.false_eq_true, if_false, hsplit, if_neg hlen, pyInt_natToDec,
    pyInt_pad2 hr]
  rfl

theorem stripCurrency_idem (l : List Char) :
    stripCurrency (stripCurrency l) = stripCurrency l := by
  simp only [stripCurrency, List.filter_filter]
  congr 1
  funext a
  exact Bool.and_self _

theorem stripCurrency_cons_keep {c : Char} (h1 : c ≠ ',') (h2 : c ≠ '$')
    (l : List Char) : stripCurrency (c :: l) = c :: stripCurrency l := by
  simp [stripCurrency, h1, h2]

theorem utils_to_cents_digits (d : ℕ) :
    Utils.to_cents (String.mk (natToDec d)) = .ok ((d : ℤ) * 100) := by
  have hdig := @natToDec_all_digits d
  have hcur : stripCurrency (natToDec d) = natToDec d :=
    stripCurrency_eq_self (chars_clean_of_digits hdig)
  have hminus : (natToDec d).head? ≠ some '-' := head_digit_ne hdig (by decide)
  simp only [Utils.to_cents, String.mk, if_neg (natToDec_ne_nil d), hcur,
    if_neg hminus, toCentsTail_digits, mul_one]

theorem frac_chars_clean {d r : ℕ} :
    ∀ c ∈ natToDec d ++ '.' :: pad2 r, c ≠ ',' ∧ c ≠ '$' := by
  intro c hc
  rcases List.mem_append.mp hc with h | h
  · exact chars_clean_of_digits natToDec_all_digits c h
  · rcases List.mem_cons.mp h with rfl | h
    · exact ⟨by decide, by decide⟩
    · exact chars_clean_of_digits pad2_all_digits c h

theorem utils_to_cents_frac (d r : ℕ) (hr : r < 100) :
    Utils.to_cents (String.mk (natToDec d ++ '.' :: pad2 r))
      = .ok ((d : ℤ) * 100 + (r : ℤ)) := by
  have hne : natToDec d ++ '.' :: pad2 r ≠ [] := by
    simp [natToDec_ne_nil d]
  have hcur := stripCurrency_eq_self (@frac_chars_clean d r)
  have hminus : (natToDec d ++ '.' :: pad2 r).head? ≠ some '-' := by
    rw [head?_append_of_ne_nil (natToDec_ne_nil d)]
    exact head_digit_ne natToDec_all_digits (by decide)
  simp only [Utils.to_cents, String.mk, if_neg hne, hcur, if_neg hminus,
    toCentsTail_frac d r hr, mul_one]

theorem utils_to_cents_neg_frac (d r : ℕ) (hr : r < 100) :
    Utils.to_cents (String.mk ('-' :: (natToDec d ++ '.' :: pad2 r)))
      = .ok (-((d : ℤ) * 100 + (r : ℤ))) := by
  have hcur : stripCurrency ('-' :: (natToDec d ++ '.' :: pad2 r))
      = '-' :: stripCurrency (natToDec d ++ '.' :: pad2 r) :=
    stripCurrency_cons_keep (by decide) (by decide) _
  have hcur2 := stripCurrency_eq_self (@frac_chars_clean d r)
  simp only [Utils.to_cents, String.mk, List.cons_ne_nil, hcur, hcur2,
    List.head?_cons, List.tail_cons, toCentsTail_frac d r hr, if_true, if_false,
    ite_true, ite_false, ne_eq, not_false_eq_true, reduceCtorEq, if_neg, if_pos]
  congr 1
  ring

theorem toCentsTail_neg (l : List Char) :
    Utils.toCentsTail l (-1) = (Utils.toCentsTail l 1).map (fun n => -n) := by
  by_cases hcont : l.contains '.' = true
  · simp only [Utils.toCentsTail, hcont, Bool.not_true, Bool.false_eq_true, if_false]
    rcases hp : splitOnDot l with _ | ⟨p, _ | ⟨c, _ | ⟨x, xs⟩⟩⟩
    · rfl
    · rfl
    · by_cases hlen : c.length ≠ 2
      · simp only [if_pos hlen]
        rfl
      · simp only [if_neg hlen]
        rcases pyInt p with e | dv
        · rfl
        · rcases pyInt c with e | cv
          · rfl
          · show Except.ok _ = Except.map _ (Except.ok _)
            simp only [Except.map]
            congr 1
            ring
    · rfl
  · have hcont' : l.contains '.' = false := by
      cases h : l.contains '.'
      · rfl
      · exact absurd h hcont
    simp only [Utils.toCentsTail, hcont', Bool.not_false, if_true]
    rcases pyInt l with e | n
    · rfl
    · show Except.map _ (Except.ok _) = Except.map _ (Except.map _ (Except.ok _))
      simp only [Except.map]
      congr 1
      ring

theorem utils_strip_law (s : String) (h1 : s.data ≠ [])
    (h2 : stripCurrency s.data ≠ []) :
    Utils.to_cents s = Utils.to_cents (String.mk (stripCurrency s.data)) := by
  simp only [Utils.to_cents, String.mk, if_neg h1, if_neg h2, stripCurrency_idem]

theorem utils_neg_law (s : String) (h1 : s.data ≠ [])
    (h2 : (stripCurrency s.data).head? ≠ some '-') :
    Utils.to_cents (String.mk ('-' :: s.data))
      = (Utils.to_cents s).map (fun n => -n) := by
  have hcur := stripCurrency_cons_keep (show ('-') ≠ ',' by decide)
    (show ('-') ≠ '$' by decide) s.data
  simp only [Utils.to_cents, String.mk, if_neg (List.cons_ne_nil '-' s.data),
    if_neg h1, hcur, List.head?_cons, if_pos rfl, List.tail_cons, if_neg h2,
    toCentsTail_neg, if_true, ite_true]

theorem rfloor_eq (q : ℚ) : q.floor = ⌊q⌋ :=
  (Rat.floor_def' q).trans Rat.floor_def.symm

theorem rhalfAway_int (k : ℤ) : rhalfAway ((k : ℚ)) = k := by
  have hhalf : ⌊(1 : ℚ) / 2⌋ = 0 := by norm_num
  unfold rhalfAway
  by_cases hk : (0 : ℚ) ≤ (k : ℚ)
  · rw [if_pos hk, rfloor_eq, Int.floor_int_add, hhalf, add_zero]
  · rw [if_neg hk, rfloor_eq]
    have : -(k : ℚ) = ((-k : ℤ) : ℚ) := by push_cast; ring
    rw [this, Int.floor_int_add, hhalf, add_zero, neg_neg]

theorem frac_chars_no_ws {d r : ℕ} :
    ∀ c ∈ natToDec d ++ '.' :: pad2 r, isPyWs c = false := by
  intro c hc
  rcases List.mem_append.mp hc with h | h
  · exact isPyWs_of_digit (natToDec_all_digits c h)
  · rcases List.mem_cons.mp h with rfl | h
    · decide
    · exact isPyWs_of_digit (pad2_all_digits c h)

theorem decValue_frac_pos (d r : ℕ) (hr : r < 100) :
    Budgeter.decValue (natToDec d ++ '.' :: pad2 r)
      = some ((d : ℚ) + (r : ℚ) / 100) := by
  have hws := stripWs_eq_self (@frac_chars_no_ws d r)
  have hminus : (natToDec d ++ '.' :: pad2 r).head? ≠ some '-' := by
    rw [head?_append_of_ne_nil (natToDec_ne_nil d)]
    exact head_digit_ne natToDec_all_digits (by decide)
  have hplus : (natToDec d ++ '.' :: pad2 r).head? ≠ some '+' := by
    rw [head?_append_of_ne_nil (natToDec_ne_nil d)]
    exact head_digit_ne natToDec_all_digits (by decide)
  have hnd : '.' ∉ natToDec d := dot_not_mem_digits natToDec_all_digits
  have hnp : '.' ∉ pad2 r := dot_not_mem_digits pad2_all_digits
  have hsplit : splitOnDot (natToDec d ++ '.' :: pad2 r) = [natToDec d, pad2 r] := by
    rw [splitOnDot_append _ hnd, splitOnDot_no_dot hnp]
  have hcond : (natToDec d ++ pad2 r) ≠ [] ∧
      ∀ c ∈ natToDec d ++ pad2 r, c.isDigit = true := by
    constructor
    · simp [natToDec_ne_nil d]
    · intro c hc
      rcases List.mem_append.mp hc with h | h
      · exact natToDec_all_digits c h
      · exact pad2_all_digits c h
  simp only [Budgeter.decValue, hws, if_neg hminus, if_neg hplus, hsplit,
    List.all_eq_true, if_pos hcond, parseNat_natToDec, pad2_parse hr,
    pad2_length hr, one_mul]
  norm_num

theorem decValue_frac_neg (d r : ℕ) (hr : r < 100) :
    Budgeter.decValue ('-' :: (natToDec d ++ '.' :: pad2 r))
      = some (-((d : ℚ) + (r : ℚ) / 100)) := by
  have hws : stripWs ('-' :: (natToDec d ++ '.' :: pad2 r))
      = '-' :: (natToDec d ++ '.' :: pad2 r) := by
    apply stripWs_eq_self
    intro c hc
    rcases List.mem_cons.mp hc with rfl | h
    · decide
    · exact frac_chars_no_ws c h
  have hnd : '.' ∉ natToDec d := dot_not_mem_digits natToDec_all_digits
  have hnp : '.' ∉ pad2 r := dot_not_mem_digits pad2_all_digits
  have hsplit : splitOnDot (natToDec d ++ '.' :: pad2 r) = [natToDec d, pad2 r] := by
    rw [splitOnDot_append _ hnd, splitOnDot_no_dot hnp]
  have hcond : (natToDec d ++ pad2 r) ≠ [] ∧
      ∀ c ∈ natToDec d ++ pad2 r, c.isDigit = true := by
    constructor
    · simp [natToDec_ne_nil d]
    · intro c hc
      rcases List.mem_append.mp hc with h | h
      · exact natToDec_all_digits c h
      · exact pad2_all_digits c h
  simp only [Budgeter.decValue, hws, List.head?_cons, if_pos rfl, List.tail_cons,
    if_true, ite_true]
  rw [hsplit]
  simp only [List.all_eq_true, if_pos hcond, parseNat_natToDec, pad2_parse hr,
    pad2_length hr]
  norm_num

/-- Claim C1 (amended): round-trip of the CLI codec.  For every cents value
`c` whose magnitude needs at most 28 digits (the Decimal context precision
of budgeter.to_cents), parsing the formatted string returns exactly `c`:
`to_cents (cents_to_str c) = ok c`.  The web codec does not satisfy the
round-trip law in general (see the counterexample), and the CLI codec
fails past 28 digits, so the law is restricted accordingly. -/
theorem c1_round_trip_cli (c : ℤ) (h : c.natAbs < 10 ^ 28) :
    Budgeter.to_cents (Budgeter.cents_to_str c) = Except.ok c := by
  have hr : c.natAbs % 100 < 100 := Nat.mod_lt _ (by norm_num)
  have hdm : 100 * (c.natAbs / 100) + c.natAbs % 100 = c.natAbs :=
    Nat.div_add_mod _ 100
  have hsum : 100 * ((c.natAbs / 100 : ℕ) : ℚ) + ((c.natAbs % 100 : ℕ) : ℚ)
      = ((c.natAbs : ℕ) : ℚ) := by
    exact_mod_cast congrArg (Nat.cast : ℕ → ℚ) hdm
  have hle : ¬ (10 ^ 28 ≤ (Int.natAbs c)) := by omega
  by_cases hc : c < 0
  · have hdata : (Budgeter.cents_to_str c).data
        = '-' :: (natToDec (c.natAbs / 100) ++ '.' :: pad2 (c.natAbs % 100)) := by
      simp [Budgeter.cents_to_str, hc]
    have hA : ((c.natAbs : ℕ) : ℚ) = -(c : ℚ) := by
      rw [Int.cast_natAbs, Int.cast_abs]
      exact abs_of_neg (by exact_mod_cast hc)
    have hv : (-(((c.natAbs / 100 : ℕ) : ℚ) + ((c.natAbs % 100 : ℕ) : ℚ) / 100)) * 100
        = ((c : ℤ) : ℚ) := by
      have hring : (-(((c.natAbs / 100 : ℕ) : ℚ) + ((c.natAbs % 100 : ℕ) : ℚ) / 100)) * 100
          = -(100 * ((c.natAbs / 100 : ℕ) : ℚ) + ((c.natAbs % 100 : ℕ) : ℚ)) := by
        ring
      rw [hring, hsum, hA, neg_neg]
    simp only [Budgeter.to_cents, hdata, decValue_frac_neg _ _ hr]
    rw [hv, rhalfAway_int, if_neg hle]
  · have hdata : (Budgeter.cents_to_str c).data
        = natToDec (c.natAbs / 100) ++ '.' :: pad2 (c.natAbs % 100) := by
      simp [Budgeter.cents_to_str, hc]
    have hA : ((c.natAbs : ℕ) : ℚ) = (c : ℚ) := by
      rw [Int.cast_natAbs, Int.cast_abs]
      exact abs_of_nonneg (by exact_mod_cast not_lt.mp hc)
    have hv : ((((c.natAbs / 100 : ℕ) : ℚ) + ((c.natAbs % 100 : ℕ) : ℚ) / 100)) * 100
        = ((c : ℤ) : ℚ) := by
      have hring : ((((c.natAbs / 100 : ℕ) : ℚ) + ((c.natAbs % 100 : ℕ) : ℚ) / 100)) * 100
          = 100 * ((c.natAbs / 100 : ℕ) : ℚ) + ((c.natAbs % 100 : ℕ) : ℚ) := by
        ring
      rw [hring, hsum, hA]
    simp only [Budgeter.to_cents, hdata, decValue_frac_pos _ _ hr]
    rw [hv, rhalfAway_int, if_neg hle]

/-- Witness for C1's amended theorem at the concrete cents value -1234
("-12.34"). -/
theorem c1_witness :
    ((-1234 : ℤ).natAbs < 10 ^ 28) ∧
      Budgeter.to_cents (Budgeter.cents_to_str (-1234)) = Except.ok (-1234) :=
  ⟨by decide, c1_round_trip_cli (-1234) (by decide)⟩

/-- Counterexample to C1 as stated: the web codec formats the (64-bit
storable) cents value 7036874417766401 through binary64, producing
"70368744177664.02", which parses back to 7036874417766402 ≠ the original;
and the CLI codec raises InvalidOperation (Decimal context precision 28)
when re-parsing its own rendering of 10^28 cents.  So
`parse_amount (format_amount c) = c` fails for both codecs at large `c`. -/
theorem c1_counterexample :
    Utils.cents_to_str (some 7036874417766401) = Except.ok "70368744177664.02"
    ∧ Utils.to_cents "70368744177664.02" = Except.ok 7036874417766402
    ∧ (7036874417766402 : ℤ) ≠ 7036874417766401
    ∧ Budgeter.cents_to_str (10 ^ 28) = "100000000000000000000000000.00"
    ∧ Budgeter.to_cents (Budgeter.cents_to_str (10 ^ 28))
        = Except.error PyErr.invalidOperation := by
  refine ⟨by decide, by decide, by decide, by decide, by decide⟩

/-- Claim C4 (amended): the strict codec rejects the listed malformed
shapes — a one-dot input whose fractional part is not two characters
("12.5"), several decimal points ("1.2.3"), non-numeric remainders
("abc"), and strings that are empty after stripping ("$") — and accepts
well-formed inputs (optional '-', digits, optional two-digit fraction)
with the exact integer cents result.  But, contrary to the original
claim, rejection is *not* exactly "non-numeric characters remaining":
remainders that Python's `int()` tolerates (inner signs, whitespace,
underscore grouping) are accepted, e.g. "--5" ↦ 500 and "12.-3" ↦ 1197
(see the counterexample). -/
theorem c4_strict_parse :
    Utils.to_cents "12.5" = Except.error (.valueError "Amount must have two decimal places")
    ∧ Utils.to_cents "1.2.3" = Except.error (.valueError "too many values to unpack")
    ∧ Utils.to_cents "abc" = Except.error (.valueError "invalid literal for int")
    ∧ Utils.to_cents "$" = Except.error (.valueError "invalid literal for int")
    ∧ (∀ d : ℕ, Utils.to_cents (String.mk (natToDec d)) = Except.ok ((d : ℤ) * 100))
    ∧ (∀ d r : ℕ, r < 100 →
        Utils.to_cents (String.mk (natToDec d ++ '.' :: pad2 r))
          = Except.ok ((d : ℤ) * 100 + (r : ℤ)))
    ∧ (∀ d r : ℕ, r < 100 →
        Utils.to_cents (String.mk ('-' :: (natToDec d ++ '.' :: pad2 r)))
          = Except.ok (-((d : ℤ) * 100 + (r : ℤ)))) := by
  exact ⟨by decide, by decide, by decide, by decide, utils_to_cents_digits,
    utils_to_cents_frac, utils_to_cents_neg_frac⟩

/-- Witness for C4's amended theorem: the well-formed input "12.34"
(digits 12, fraction 34) parses to exactly 1234 cents. -/
theorem c4_witness :
    (34 < 100)
    ∧ Utils.to_cents (String.mk (natToDec 12 ++ '.' :: pad2 34))
        = Except.ok ((12 : ℤ) * 100 + (34 : ℤ)) :=
  ⟨by decide, c4_strict_parse.2.2.2.2.2.1 12 34 (by decide)⟩

/-- Counterexample to C4 as stated: "--5" and "12.-3" both have
non-numeric characters remaining after stripping and sign handling, yet
the strict codec accepts them (Python's int() parses the inner "-5"/"-3"),
returning 500 and 1197 cents instead of failing. -/
theorem c4_counterexample :
    Utils.to_cents "--5" = Except.ok 500
    ∧ Utils.to_cents "12.-3" = Except.ok 1197 := by
  exact ⟨by decide, by decide⟩

/-- Claim C8: sign and currency handling of the strict parse_amount
(utils.to_cents): the two concrete equations of §8, plus the general laws
behind them — commas and dollar signs are removed before any parsing, and
a leading '-' (when the stripped remainder does not itself start with '-')
exactly negates the result of parsing the rest. -/
theorem c8_sign_currency :
    Utils.to_cents "-12.34" = Except.ok (-1234)
    ∧ Utils.to_cents "$1,234.56" = Except.ok 123456
    ∧ (∀ s : String, s.data ≠ [] → stripCurrency s.data ≠ [] →
        Utils.to_cents s = Utils.to_cents (String.mk (stripCurrency s.data)))
    ∧ (∀ s : String, s.data ≠ [] → (stripCurrency s.data).head? ≠ some '-' →
        Utils.to_cents (String.mk ('-' :: s.data))
          = (Utils.to_cents s).map (fun n => -n)) := by
  exact ⟨by decide, by decide, utils_strip_law, utils_neg_law⟩

/-- Witness for C8 at the concrete input "$1,234.56": prepending '-' gives
the negated parse (so "-$1,234.56" ↦ -123456). -/
theorem c8_witness :
    (("$1,234.56" : String).data ≠ [])
    ∧ (stripCurrency ("$1,234.56" : String).data).head? ≠ some '-'
    ∧ Utils.to_cents (String.mk ('-' :: ("$1,234.56" : String).data))
        = (Utils.to_cents "$1,234.56").map (fun n => -n) :=
  ⟨by decide, by decide, c8_sign_currency.2.2.2 "$1,234.56" (by decide) (by decide)⟩

theorem moneyShape_canonical (sgn : Bool) (d r : ℕ) (hr : r < 100) :
    moneyShape ((if sgn = true then ['-'] else []) ++ natToDec d ++ '.' :: pad2 r)
      = true := by
  have hnd : '.' ∉ natToDec d := dot_not_mem_digits natToDec_all_digits
  have hnp : '.' ∉ pad2 r := dot_not_mem_digits pad2_all_digits
  have hsplit : splitOnDot (natToDec d ++ '.' :: pad2 r) = [natToDec d, pad2 r] := by
    rw [splitOnDot_append _ hnd, splitOnDot_no_dot hnp]
  have hchecks : (!(natToDec d).isEmpty && (natToDec d).all Char.isDigit
      && decide ((pad2 r).length = 2) && (pad2 r).all Char.isDigit) = true := by
    have h1 : (!(natToDec d).isEmpty) = true := by
      simp [List.isEmpty_iff, natToDec_ne_nil d]
    have h2 : (natToDec d).all Char.isDigit = true :=
      List.all_eq_true.mpr natToDec_all_digits
    have h3 : decide ((pad2 r).length = 2) = true := by simp [pad2_length hr]
    have h4 : (pad2 r).all Char.isDigit = true :=
      List.all_eq_true.mpr pad2_all_digits
    rw [h1, h2, h3, h4]
    rfl
  cases sgn with
  | true =>
    have h1 : ((['-'] : List Char) ++ natToDec d ++ '.' :: pad2 r).head? = some '-' := rfl
    have h2 : ((['-'] : List Char) ++ natToDec d ++ '.' :: pad2 r).tail
        = natToDec d ++ '.' :: pad2 r := rfl
    simp only [if_pos rfl, moneyShape, h1, h2, if_true, ite_true]
    rw [hsplit]
    exact hchecks
  | false =>
    have h1 : (natToDec d ++ '.' :: pad2 r).head? ≠ some '-' := by
      rw [head?_append_of_ne_nil (natToDec_ne_nil d)]
      exact head_digit_ne natToDec_all_digits (by decide)
    simp only [moneyShape, Bool.false_eq_true, if_false, List.nil_append, if_neg h1]
    rw [hsplit]
    exact hchecks

theorem fmt2f_shape (x : ℚ) : moneyShape (fmt2f x) = true := by
  have hr : (rhe (qabs x * 100)).toNat % 100 < 100 := Nat.mod_lt _ (by norm_num)
  by_cases hx : x < 0
  · have h := moneyShape_canonical true ((rhe (qabs x * 100)).toNat / 100)
      ((rhe (qabs x * 100)).toNat % 100) hr
    simpa [fmt2f, hx] using h
  · have h := moneyShape_canonical false ((rhe (qabs x * 100)).toNat / 100)
      ((rhe (qabs x * 100)).toNat % 100) hr
    simpa [fmt2f, hx] using h

theorem budgeter_cents_to_str_shape (c : ℤ) :
    moneyShape (Budgeter.cents_to_str c).data = true := by
  have hr : c.natAbs % 100 < 100 := Nat.mod_lt _ (by norm_num)
  by_cases hc : c < 0
  · have h := moneyShape_canonical true (c.natAbs / 100) _ hr
    simpa [Budgeter.cents_to_str, String.mk, hc] using h
  · have h := moneyShape_canonical false (c.natAbs / 100) _ hr
    simpa [Budgeter.cents_to_str, String.mk, hc] using h

/-- Claim C9 (amended): the CLI formatter produces sign + integer dollars +
'.' + exactly two fractional digits for *every* integer cents value (pure
integer arithmetic); the web formatter produces that shape whenever its
binary64 conversion of cents/100 succeeds, formats a null input as the
empty string, and satisfies the two concrete examples of §8. But the web
formatter is not magnitude-independent: past the double range the division
raises OverflowError instead of producing the shape (see counterexample). -/
theorem c9_format_shape :
    (∀ c : ℤ, moneyShape (Budgeter.cents_to_str c).data = true)
    ∧ Utils.cents_to_str none = Except.ok ""
    ∧ (∀ (c : ℤ) (s : String), Utils.cents_to_str (some c) = Except.ok s →
        moneyShape s.data = true)
    ∧ Utils.cents_to_str (some 0) = Except.ok "0.00"
    ∧ Utils.cents_to_str (some (-5)) = Except.ok "-0.05"
    ∧ Budgeter.cents_to_str 0 = "0.00"
    ∧ Budgeter.cents_to_str (-5) = "-0.05" := by
  refine ⟨budgeter_cents_to_str_shape, rfl, ?_, by decide, by decide, by decide, by decide⟩
  intro c s h
  simp only [Utils.cents_to_str] at h
  rcases hp : pyFloat64 ((c : ℚ) / 100) with e | x
  · rw [hp] at h
    cases h
  · rw [hp] at h
    have hs : s = String.mk (fmt2f x) := by
      cases h
      rfl
    rw [hs]
    exact fmt2f_shape x

/-- Witness for C9 at the concrete value 1234: the web formatter emits
"12.34", which has the money shape. -/
theorem c9_witness :
    Utils.cents_to_str (some 1234) = Except.ok "12.34"
    ∧ moneyShape ("12.34" : String).data = true :=
  ⟨by decide, c9_format_shape.2.2.1 1234 "12.34" (by decide)⟩

/-- Counterexample to C9 as stated ("regardless of magnitude"): at 10^312
cents the web formatter does not produce sign+dollars+'.'+two digits — the
underlying float division cents/100 overflows the double range and raises
OverflowError. -/
theorem c9_counterexample :
    Utils.cents_to_str (some (10 ^ 312)) = Except.error PyErr.overflowError := by
  decide

theorem uint32_toNat_inj {a b : UInt32} (h : a.toNat = b.toNat) : a = b := by
  cases a with | mk av =>
  cases b with | mk bv =>
  have hv : av = bv := BitVec.eq_of_toNat_eq h
  rw [hv]

theorem char_toNat_inj {a b : Char} (h : a.toNat = b.toNat) : a = b :=
  Char.eq_of_val_eq (uint32_toNat_inj h)

theorem lexLe_total : ∀ x y : List Char, lexLe x y = true ∨ lexLe y x = true
  | [], _ => Or.inl rfl
  | _ :: _, [] => Or.inr rfl
  | a :: as, b :: bs => by
    by_cases hab : a = b
    · subst hab
      simp only [lexLe, if_pos rfl]
      exact lexLe_total as bs
    · have hne : a.toNat ≠ b.toNat := fun h => hab (char_toNat_inj h)
      simp only [lexLe, if_neg hab, if_neg (Ne.symm hab), decide_eq_true_eq]
      omega

theorem lexLe_trans : ∀ x y z : List Char, lexLe x y = true → lexLe y z = true →
    lexLe x z = true
  | [], _, _, _, _ => rfl
  | _ :: _, [], _, hxy, _ => by simp [lexLe] at hxy
  | _ :: _, _ :: _, [], _, hyz => by simp [lexLe] at hyz
  | a :: as, b :: bs, c :: cs, hxy, hyz => by
    by_cases hab : a = b
    · subst hab
      simp only [lexLe, if_pos rfl] at hxy
      by_cases hbc : a = c
      · subst hbc
        simp only [lexLe, if_pos rfl] at hyz ⊢
        exact lexLe_trans as bs cs hxy hyz
      · simp only [lexLe, if_neg hbc] at hyz ⊢
        exact hyz
    · simp only [lexLe, if_neg hab, decide_eq_true_eq] at hxy
      by_cases hbc : b = c
      · subst hbc
        simp only [lexLe, if_neg hab, decide_eq_true_eq]
        exact hxy
      · simp only [lexLe, if_neg hbc, decide_eq_true_eq] at hyz
        have hac : a ≠ c := by
          intro h
          subst h
          omega
        simp only [lexLe, if_neg hac, decide_eq_true_eq]
        omega

theorem lexLe_antisymm : ∀ x y : List Char, lexLe x y = true → lexLe y x = true →
    x = y
  | [], [], _, _ => rfl
  | [], _ :: _, _, hyx => by simp [lexLe] at hyx
  | _ :: _, [], hxy, _ => by simp [lexLe] at hxy
  | a :: as, b :: bs, hxy, hyx => by
    by_cases hab : a = b
    · subst hab
      simp only [lexLe, if_pos rfl] at hxy hyx
      rw [lexLe_antisymm as bs hxy hyx]
    · simp only [lexLe, if_neg hab, if_neg (Ne.symm hab), decide_eq_true_eq]
        at hxy hyx
      omega

instance : IsTotal Tx Budgeter.dateOrd :=
  ⟨fun a b => lexLe_total b.iso_date.data a.iso_date.data⟩

instance : IsTrans Tx Budgeter.dateOrd :=
  ⟨fun _ b _ hab hbc => lexLe_trans _ b.iso_date.data _ hbc hab⟩

instance : IsTotal Tx Database.txOrd := by
  constructor
  intro a b
  unfold Database.txOrd
  by_cases heq : b.iso_date.data = a.iso_date.data
  · rcases Nat.le_total b.id a.id with h | h
    · exact Or.inl (Or.inr ⟨heq, h⟩)
    · exact Or.inr (Or.inr ⟨heq.symm, h⟩)
  · rcases lexLe_total b.iso_date.data a.iso_date.data with h | h
    · exact Or.inl (Or.inl ⟨heq, h⟩)
    · exact Or.inr (Or.inl ⟨fun e => heq e.symm, h⟩)

instance : IsTrans Tx Database.txOrd := by
  constructor
  intro a b c hab hbc
  rcases hab with ⟨hne1, hle1⟩ | ⟨heq1, hid1⟩
  · rcases hbc with ⟨hne2, hle2⟩ | ⟨heq2, hid2⟩
    · left
      refine ⟨?_, lexLe_trans _ _ _ hle2 hle1⟩
      intro hca
      apply hne2
      have hba : lexLe b.iso_date.data c.iso_date.data = true := by
        rw [hca]
        exact hle1
      exact lexLe_antisymm _ _ hle2 hba
    · left
      refine ⟨fun h => hne1 (heq2.symm.trans h), ?_⟩
      rw [heq2]
      exact hle1
  · rcases hbc with ⟨hne2, hle2⟩ | ⟨heq2, hid2⟩
    · left
      refine ⟨fun h => hne2 (h.trans heq1.symm), ?_⟩
      rw [← heq1]
      exact hle2
    · exact Or.inr ⟨heq2.trans heq1, hid2.trans hid1⟩

/-- Claim C5 (amended): the web list path (database.list_txs) returns
transactions sorted descending by date with descending id as the tiebreak
for equal dates, with or without a month filter, dropping nothing up to
the limit; on the concrete rows of §8 it returns ids [3, 2, 1].  The
date-range/category path (budgeter.find_transactions) however sorts by
`iso_date DESC` only — equal-date rows keep store order, there is no id
tiebreak (see the counterexample). -/
theorem c5_listing_order :
    (∀ (db : List Tx) (lim : ℕ) (m : Option String),
        List.Sorted Database.txOrd (Database.list_txs db lim m))
    ∧ (∀ (db : List Tx) (lim : ℕ), db.length ≤ lim →
        List.Perm (Database.list_txs db lim none) db)
    ∧ (Database.list_txs [txA, txB, txC] 500 none).map Tx.id = [3, 2, 1]
    ∧ (∀ (db : List Tx) (sd ed cat : Option String),
        List.Sorted Budgeter.dateOrd (Budgeter.find_transactions db sd ed cat)) := by
  refine ⟨?_, ?_, by decide, ?_⟩
  · intro db lim m
    exact List.Pairwise.sublist (List.take_sublist _ _)
      (List.sorted_insertionSort Database.txOrd _)
  · intro db lim hlim
    unfold Database.list_txs
    rw [List.take_of_length_le (by rw [List.length_insertionSort]; exact hlim)]
    exact List.perm_insertionSort Database.txOrd db
  · intro db sd ed cat
    exact List.sorted_insertionSort Budgeter.dateOrd _

/-- Witness for C5: on the three concrete rows with limit 500, the web
list is a permutation of the store. -/
theorem c5_witness :
    (([txA, txB, txC] : List Tx).length ≤ 500)
    ∧ List.Perm (Database.list_txs [txA, txB, txC] 500 none) [txA, txB, txC] :=
  ⟨by decide, c5_listing_order.2.1 [txA, txB, txC] 500 (by decide)⟩

/-- Counterexample to C5 as stated: on two equal-date rows with ids 1 and 2
the date-range/category path returns [1, 2] (store order), not the claimed
descending-id order [2, 1] — its SQL orders by `iso_date DESC` alone. -/
theorem c5_counterexample :
    (Budgeter.find_transactions [txD, txE] none none none).map Tx.id = [1, 2]
    ∧ (Budgeter.find_transactions [txD, txE] none none none).map Tx.id ≠ [2, 1] := by
  exact ⟨by decide, by decide⟩

theorem dictFind_keyed (g : String → ℤ) (L : List String) (c : String) :
    Database.dictFind c (L.map (fun k => (k, g k)))
      = if c ∈ L then some (g c) else none := by
  induction L with
  | nil => simp [Database.dictFind]
  | cons k T ih =>
    by_cases hk : k = c
    · subst hk
      simp [Database.dictFind]
    · have hck : c ≠ k := Ne.symm hk
      simp [Database.dictFind, hk, hck, ih]

/-- Claim C6: the web monthly summary maps a category to the sum of
`amount_cents` over exactly the expense transactions of the month in that
category, and is absent for categories with no such transaction; on the
concrete rows, Groceries sums to 400 (the income row and the other-month
row are excluded) and an untouched key is absent. -/
theorem c6_monthly_summary :
    (∀ (db : List Tx) (m c : String),
      Database.dictFind c (Database.monthly_summary db m)
        = (if ((db.filter (fun t => isPrefixL m.data t.iso_date.data
                  && t.ttype == "expense")).filter (fun t => t.category == c)) = []
           then none
           else some ((((db.filter (fun t => isPrefixL m.data t.iso_date.data
                  && t.ttype == "expense")).filter
                    (fun t => t.category == c)).map Tx.amount_cents).sum)))
    ∧ Database.dictFind "Groceries"
        (Database.monthly_summary [grocery1, grocery2, incomeTx, otherMonthTx]
          "2025-01") = some 400
    ∧ Database.dictFind "Rent"
        (Database.monthly_summary [grocery1, grocery2, incomeTx, otherMonthTx]
          "2025-01") = none := by
  refine ⟨?_, by decide, by decide⟩
  intro db m c
  have hms : Database.monthly_summary db m
      = ((db.filter (fun t => isPrefixL m.data t.iso_date.data
          && t.ttype == "expense")).map Tx.category).dedup.map
        (fun c2 => (c2, (((db.filter (fun t => isPrefixL m.data t.iso_date.data
          && t.ttype == "expense")).filter
            (fun t => t.category == c2)).map Tx.amount_cents).sum)) := rfl
  rw [hms, dictFind_keyed]
  have hiff : c ∈ ((db.filter (fun t => isPrefixL m.data t.iso_date.data
        && t.ttype == "expense")).map Tx.category).dedup
      ↔ ¬ ((db.filter (fun t => isPrefixL m.data t.iso_date.data
        && t.ttype == "expense")).filter (fun t => t.category == c) = []) := by
    rw [List.mem_dedup, List.mem_map]
    constructor
    · rintro ⟨t, ht, rfl⟩ hnil
      have := List.filter_eq_nil_iff.mp hnil t ht
      simp at this
    · intro hne
      obtain ⟨t, ht⟩ := List.exists_mem_of_ne_nil _ hne
      obtain ⟨htm, htc⟩ := List.mem_filter.mp ht
      exact ⟨t, htm, by simpa using htc⟩
  by_cases hnil : (db.filter (fun t => isPrefixL m.data t.iso_date.data
      && t.ttype == "expense")).filter (fun t => t.category == c) = []
  · rw [if_neg (fun hmem => (hiff.mp hmem) hnil), if_pos hnil]
  · rw [if_pos (hiff.mpr hnil), if_neg hnil]

/-- Claim C7 (amended): updating a missing id is a silent no-op — the
UPDATE matches no row, nothing is raised (the function's code path has no
failure at all), and the store is unchanged. -/
theorem c7_update_missing (db : List Tx) (txid : ℕ) (d : String) (a : ℤ)
    (ty cat de : String) (h : ∀ t ∈ db, t.id ≠ txid) :
    Database.update_tx db txid d a ty cat de = db := by
  unfold Database.update_tx
  have hmap : ∀ t ∈ db,
      (if t.id = txid then
        { t with iso_date := d, amount_cents := a, ttype := ty,
                 category := cat, description := de }
      else t) = t := fun t ht => by simp [h t ht]
  calc db.map _ = db.map id := List.map_congr_left hmap
    _ = db := List.map_id db

/-- Witness for C7: updating id 5 in a store holding only id 1 returns the
store unchanged. -/
theorem c7_witness :
    (∀ t ∈ [txA], t.id ≠ 5)
    ∧ Database.update_tx [txA] 5 "2025-02-02" 777 "income" "X" "d" = [txA] :=
  ⟨by decide, c7_update_missing [txA] 5 "2025-02-02" 777 "income" "X" "d" (by decide)⟩

/-- Counterexample to C7 as stated: update_tx on the missing id 5 does not
fail with NotFound — database.update_tx has no error path at all (no
rowcount check, and SQL UPDATE with an unmatched WHERE succeeds); the call
completes normally returning the unchanged store. -/
theorem c7_counterexample :
    Database.update_tx [txA] 5 "2025-02-02" 777 "income" "X" "d" = [txA] := by
  decide

/-- Claim C10 (amended): the web store's mark_synced with an empty ids list
executes `UPDATE ... WHERE id IN ()`, which SQLite permits and documents
as matching no row — so the call is a no-op, the same observable result as
the CLI store's early return (the claimed error does not occur); and for
every ids list, both stores leave rows whose id is outside the list
unchanged, in place. -/
theorem c10_mark_synced :
    (∀ db : List Tx, Database.mark_synced [] db = db)
    ∧ (∀ db : List Tx, Budgeter.mark_synced [] db = db)
    ∧ (∀ (ids : List ℕ) (db : List Tx) (i : ℕ) (t : Tx), db[i]? = some t →
        t.id ∉ ids → (Database.mark_synced ids db)[i]? = some t
          ∧ (Budgeter.mark_synced ids db)[i]? = some t) := by
  refine ⟨?_, ?_, ?_⟩
  · intro db
    simp [Database.mark_synced]
  · intro db
    simp [Budgeter.mark_synced]
  · intro ids db i t hget hid
    have hweb : (Database.mark_synced ids db)[i]? = some t := by
      unfold Database.mark_synced
      rw [List.getElem?_map, hget]
      simp [hid]
    refine ⟨hweb, ?_⟩
    unfold Budgeter.mark_synced
    by_cases hids : ids = []
    · rw [if_pos hids]
      exact hget
    · rw [if_neg hids, List.getElem?_map, hget]
      simp [hid]

/-- Witness for C10: a row with id 1 is untouched by mark_synced([9]) in
both stores. -/
theorem c10_witness :
    (([txA] : List Tx)[0]? = some txA) ∧ (txA.id ∉ ([9] : List ℕ))
    ∧ (Database.mark_synced [9] [txA])[0]? = some txA
    ∧ (Budgeter.mark_synced [9] [txA])[0]? = some txA := by
  have h := c10_mark_synced.2.2 [9] [txA] 0 txA (by decide) (by decide)
  exact ⟨by decide, by decide, h.1, h.2⟩

/-- Counterexample to C10 as stated: the web mark_synced on the empty list
does not raise — SQLite accepts the empty `IN ()` (matching no row) — and
the store is returned unchanged, i.e. it *is* a no-op. -/
theorem c10_counterexample :
    Database.mark_synced [] [txA] = [txA] := by
  decide

theorem unsynced_mem {db : List Tx} {t : Tx} :
    t ∈ Budgeter.unsynced db ↔ t ∈ db ∧ t.synced = false := by
  unfold Budgeter.unsynced
  rw [List.mem_insertionSort, List.mem_filter, Bool.not_eq_true']

theorem unsynced_map_id_nodup {db : List Tx} (hnd : (db.map Tx.id).Nodup) :
    ((Budgeter.unsynced db).map Tx.id).Nodup := by
  have hperm : List.Perm ((Budgeter.unsynced db).map Tx.id)
      ((db.filter (fun t => !t.synced)).map Tx.id) :=
    (List.perm_insertionSort Budgeter.idLe _).map Tx.id
  have hsub : ((db.filter (fun t => !t.synced)).map Tx.id).Sublist (db.map Tx.id) :=
    (List.filter_sublist db).map Tx.id
  exact (List.Perm.nodup_iff hperm).mpr (List.Nodup.sublist hsub hnd)

/-- Claim C2: per-item partial-failure semantics of CloudSync.firebase_sync.
With a configured base url and a nonempty unsynced set, one PUT is issued
per unsynced transaction (ids listed once each, failures do not abort the
run), the resulting store flips `synced` exactly on the rows the sink
confirmed (2xx) and leaves every other field and row untouched,
`mark_synced` receives the full confirmed set once at the end of the run,
and the transactions still unsynced afterwards — what a subsequent run
would attempt — are exactly the previously failed ones. -/
theorem c2_sync_best_effort (base : String) (sink : ℕ → Budgeter.PushOutcome)
    (db : List Tx) (hbase : base ≠ "") (hnd : (db.map Tx.id).Nodup)
    (hne : Budgeter.unsynced db ≠ []) :
    (Budgeter.firebase_sync base sink db).1
        = .done ((Budgeter.unsynced db).map Tx.id)
            (((Budgeter.unsynced db).filter
              (fun t => Budgeter.acceptsB (sink t.id))).map Tx.id)
    ∧ ((Budgeter.unsynced db).map Tx.id).Nodup
    ∧ (∀ i, i ∈ (Budgeter.unsynced db).map Tx.id
        ↔ ∃ t ∈ db, t.id = i ∧ t.synced = false)
    ∧ (Budgeter.firebase_sync base sink db).2
        = db.map (fun t => if !t.synced && Budgeter.acceptsB (sink t.id)
            then { t with synced := true } else t)
    ∧ (∀ i, i ∈ (Budgeter.unsynced (Budgeter.firebase_sync base sink db).2).map Tx.id
        ↔ ∃ t ∈ db, t.id = i ∧ t.synced = false
            ∧ Budgeter.acceptsB (sink t.id) = false) := by
  have hinj := List.inj_on_of_nodup_map hnd
  have hmemconf : ∀ t ∈ db, (t.id ∈ ((Budgeter.unsynced db).filter
      (fun t2 => Budgeter.acceptsB (sink t2.id))).map Tx.id)
      ↔ (!t.synced && Budgeter.acceptsB (sink t.id)) = true := by
    intro t ht
    constructor
    · intro hid
      obtain ⟨s, hs, hsid⟩ := List.mem_map.mp hid
      obtain ⟨hsu, hsacc⟩ := List.mem_filter.mp hs
      obtain ⟨hsdb, hssync⟩ := unsynced_mem.mp hsu
      have : s = t := hinj hsdb ht hsid
      subst this
      simp [hssync, hsacc]
    · intro hcond
      have hsync : t.synced = false := by
        have h1 := (Bool.and_eq_true_iff.mp hcond).1
        simpa using h1
      have hacc : Budgeter.acceptsB (sink t.id) = true :=
        (Bool.and_eq_true_iff.mp hcond).2
      refine List.mem_map.mpr ⟨t, List.mem_filter.mpr ⟨?_, hacc⟩, rfl⟩
      exact unsynced_mem.mpr ⟨ht, hsync⟩
  have hstate : (Budgeter.firebase_sync base sink db).2
      = db.map (fun t => if !t.synced && Budgeter.acceptsB (sink t.id)
          then { t with synced := true } else t) := by
    simp only [Budgeter.firebase_sync, if_neg hbase, if_neg hne]
    by_cases hconf : ((Budgeter.unsynced db).filter
        (fun t2 => Budgeter.acceptsB (sink t2.id))).map Tx.id = []
    · rw [if_pos hconf]
      have : ∀ t ∈ db, (if !t.synced && Budgeter.acceptsB (sink t.id)
          then { t with synced := true } else t) = t := by
        intro t ht
        rw [if_neg]
        intro hcond
        have := (hmemconf t ht).mpr hcond
        rw [hconf] at this
        exact List.not_mem_nil _ this
      exact ((List.map_congr_left this).trans (List.map_id db)).symm
    · rw [if_neg hconf]
      unfold Budgeter.mark_synced
      rw [if_neg hconf]
      apply List.map_congr_left
      intro t ht
      by_cases hcond : (!t.synced && Budgeter.acceptsB (sink t.id)) = true
      · rw [if_pos ((hmemconf t ht).mpr hcond), if_pos hcond]
      · rw [if_neg (fun hmem => hcond ((hmemconf t ht).mp hmem)), if_neg hcond]
  refine ⟨?_, unsynced_map_id_nodup hnd, ?_, hstate, ?_⟩
  · simp only [Budgeter.firebase_sync, if_neg hbase, if_neg hne]
  · intro i
    rw [List.mem_map]
    constructor
    · rintro ⟨t, ht, rfl⟩
      obtain ⟨htdb, htsync⟩ := unsynced_mem.mp ht
      exact ⟨t, htdb, rfl, htsync⟩
    · rintro ⟨t, htdb, rfl, htsync⟩
      exact ⟨t, unsynced_mem.mpr ⟨htdb, htsync⟩, rfl⟩
  · intro i
    rw [hstate, List.mem_map]
    constructor
    · rintro ⟨t', ht', rfl⟩
      obtain ⟨ht'db, ht'sync⟩ := unsynced_mem.mp ht'
      obtain ⟨t, htdb, hgt⟩ := List.mem_map.mp ht'db
      by_cases hcond : (!t.synced && Budgeter.acceptsB (sink t.id)) = true
      · rw [if_pos hcond] at hgt
        rw [← hgt] at ht'sync
        simp at ht'sync
      · rw [if_neg hcond] at hgt
        subst hgt
        have ha : Budgeter.acceptsB (sink t.id) = false := by
          by_contra hacc
          rw [Bool.not_eq_false] at hacc
          apply hcond
          simp [ht'sync, hacc]
        exact ⟨t, htdb, rfl, ht'sync, ha⟩
    · rintro ⟨t, htdb, rfl, htsync, htacc⟩
      have hcond : (!t.synced && Budgeter.acceptsB (sink t.id)) = false := by
        rw [htacc, Bool.and_false]
      refine ⟨t, unsynced_mem.mpr ⟨?_, htsync⟩, rfl⟩
      refine List.mem_map.mpr ⟨t, htdb, ?_⟩
      rw [if_neg]
      rw [hcond]
      exact Bool.false_ne_true

/-- Witness for C2: three unsynced rows, the sink rejects id 2 (HTTP 500)
and accepts ids 1 and 3; after the run exactly rows 1 and 3 are synced. -/
theorem c2_witness :
    (("u" : String) ≠ "")
    ∧ (([txA, txB, txC] : List Tx).map Tx.id).Nodup
    ∧ Budgeter.unsynced [txA, txB, txC] ≠ []
    ∧ (Budgeter.firebase_sync "u" sinkW [txA, txB, txC]).2
        = [txA, txB, txC].map (fun t => if !t.synced && Budgeter.acceptsB (sinkW t.id)
            then { t with synced := true } else t) :=
  ⟨by decide, by decide, by decide,
    (c2_sync_best_effort "u" sinkW [txA, txB, txC] (by decide) (by decide)
      (by decide)).2.2.2.1⟩

theorem findTx_map_pres {rows : List Tx} {g : Tx → Tx} (hg : ∀ t, (g t).id = t.id)
    (i : ℕ) : (rows.map g).find? (fun t => t.id = i)
      = (rows.find? (fun t => t.id = i)).map g := by
  rw [List.find?_map]
  have hfun : ((fun t : Tx => decide (t.id = i)) ∘ g)
      = (fun t : Tx => decide (t.id = i)) := by
    funext t
    simp [Function.comp, hg t]
  congr 1
  rw [hfun]

theorem find?_filter_ne {rows : List Tx} {j i : ℕ} (hij : i ≠ j) :
    (rows.filter (fun t => !(t.id = j))).find? (fun t => t.id = i)
      = rows.find? (fun t => t.id = i) := by
  induction rows with
  | nil => rfl
  | cons t rest ih =>
    rw [List.filter_cons]
    by_cases htj : t.id = j
    · have hti : ¬ (t.id = i) := fun h => hij (h.symm.trans htj)
      rw [if_neg (by simp [htj])]
      rw [ih, List.find?_cons_of_neg _ (by simpa using hti)]
    · rw [if_pos (by simp [htj])]
      by_cases hti : t.id = i
      · rw [List.find?_cons_of_pos _ (by simpa using hti),
          List.find?_cons_of_pos _ (by simpa using hti)]
      · rw [List.find?_cons_of_neg _ (by simpa using hti),
          List.find?_cons_of_neg _ (by simpa using hti), ih]

theorem seq_le_applyOp (s : Database.WebStore) (op : Database.Op) :
    s.seq ≤ (Database.applyOp s op).seq := by
  cases op <;> simp [Database.applyOp]

theorem applyOp_WF {s : Database.WebStore} (hWF : Database.WF s)
    (op : Database.Op) : Database.WF (Database.applyOp s op) := by
  cases op with
  | add d a ty cat de created =>
    intro t ht
    rcases List.mem_append.mp ht with h | h
    · exact le_trans (hWF t h) (Nat.le_succ _)
    · rcases List.mem_singleton.mp h with rfl
      exact le_rfl
  | update i d a ty cat de =>
    intro t ht
    obtain ⟨t0, ht0, hg⟩ := List.mem_map.mp ht
    have : t.id = t0.id := by
      subst hg
      by_cases h : t0.id = i <;> simp [h]
    rw [this]
    exact hWF t0 ht0
  | delete i =>
    intro t ht
    exact hWF t (List.mem_of_mem_filter ht)
  | markSynced ids =>
    intro t ht
    obtain ⟨t0, ht0, hg⟩ := List.mem_map.mp ht
    have : t.id = t0.id := by
      subst hg
      by_cases h : t0.id ∈ ids <;> simp [h]
    rw [this]
    exact hWF t0 ht0
  | clearAll =>
    intro t ht
    simp [Database.applyOp, Database.clear_all] at ht

theorem applyOp_pres (s : Database.WebStore) (op : Database.Op) (i : ℕ)
    (t₀ t₁ : Tx) (h0 : Database.findTx s i = some t₀)
    (h1 : Database.findTx (Database.applyOp s op) i = some t₁) :
    (t₀.synced = true → t₁.synced = true) ∧ t₁.created_at = t₀.created_at := by
  cases op with
  | add d a ty cat de created =>
    unfold Database.findTx Database.applyOp at h1
    rw [List.find?_append] at h1
    unfold Database.findTx at h0
    rw [h0] at h1
    simp only [Option.or_some] at h1
    cases h1
    exact ⟨id, rfl⟩
  | update j d a ty cat de =>
    unfold Database.findTx Database.applyOp Database.update_tx at h1
    rw [findTx_map_pres (fun t => by by_cases h : t.id = j <;> simp [h]) i] at h1
    unfold Database.findTx at h0
    rw [h0] at h1
    simp only [Option.map_some'] at h1
    cases h1
    by_cases h : t₀.id = j <;> simp [h]
  | delete j =>
    unfold Database.findTx Database.applyOp Database.delete_tx at h1
    by_cases hij : i = j
    · subst hij
      rw [List.find?_eq_none.mpr] at h1
      · cases h1
      · intro x hx
        have := List.of_mem_filter hx
        simpa using this
    · rw [find?_filter_ne hij] at h1
      unfold Database.findTx at h0
      rw [h0] at h1
      cases h1
      exact ⟨id, rfl⟩
  | markSynced ids =>
    unfold Database.findTx Database.applyOp Database.mark_synced at h1
    rw [findTx_map_pres (fun t => by by_cases h : t.id ∈ ids <;> simp [h]) i] at h1
    unfold Database.findTx at h0
    rw [h0] at h1
    simp only [Option.map_some'] at h1
    cases h1
    by_cases h : t₀.id ∈ ids <;> simp [h]
  | clearAll =>
    unfold Database.findTx Database.applyOp Database.clear_all at h1
    cases h1

theorem findTx_none_fold (ops : List Database.Op) :
    ∀ (s : Database.WebStore), Database.WF s → ∀ i : ℕ, i ≤ s.seq →
    Database.findTx s i = none →
    Database.findTx (ops.foldl Database.applyOp s) i = none := by
  induction ops with
  | nil => intro s _ i _ hnone; exact hnone
  | cons op rest ih =>
    intro s hWF i hi hnone
    rw [List.foldl_cons]
    have hstep : Database.findTx (Database.applyOp s op) i = none := by
      cases op with
      | add d a ty cat de created =>
        unfold Database.findTx Database.applyOp
        rw [List.find?_append]
        unfold Database.findTx at hnone
        rw [hnone]
        simp only [Option.none_or]
        rw [List.find?_cons_of_neg _ (by simp; omega), List.find?_nil]
      | update j d a ty cat de =>
        unfold Database.findTx Database.applyOp Database.update_tx
        rw [findTx_map_pres (fun t => by by_cases h : t.id = j <;> simp [h]) i]
        unfold Database.findTx at hnone
        rw [hnone]
        rfl
      | delete j =>
        unfold Database.findTx Database.applyOp Database.delete_tx
        unfold Database.findTx at hnone
        rw [List.find?_eq_none] at hnone ⊢
        intro x hx
        exact hnone x (List.mem_of_mem_filter hx)
      | markSynced ids =>
        unfold Database.findTx Database.applyOp Database.mark_synced
        rw [findTx_map_pres (fun t => by by_cases h : t.id ∈ ids <;> simp [h]) i]
        unfold Database.findTx at hnone
        rw [hnone]
        rfl
      | clearAll => rfl
    exact ih _ (applyOp_WF hWF op) i (le_trans hi (seq_le_applyOp s op)) hstep

/-- Claim C3: synced/created_at invariants of the web store.  Across any
sequence of add/update/delete/mark_synced/clear_all operations on a
well-formed store, a transaction id present before and after has its
`synced` flag only ever go false→true (never reset) and its `created_at`
unchanged; and a single update rewrites exactly the five mutable fields of
the addressed row — `synced` and `created_at` are kept, all other rows are
untouched. -/
theorem c3_synced_created_invariants :
    (∀ (ops : List Database.Op) (s : Database.WebStore) (i : ℕ) (t₀ t₁ : Tx),
      Database.WF s → Database.findTx s i = some t₀ →
      Database.findTx (ops.foldl Database.applyOp s) i = some t₁ →
      (t₀.synced = true → t₁.synced = true) ∧ t₁.created_at = t₀.created_at)
    ∧ (∀ (s : Database.WebStore) (i : ℕ) (d : String) (a : ℤ) (ty cat de : String),
        (∀ j, j ≠ i →
          Database.findTx (Database.applyOp s (.update i d a ty cat de)) j
            = Database.findTx s j)
        ∧ (∀ t₀, Database.findTx s i = some t₀ →
            Database.findTx (Database.applyOp s (.update i d a ty cat de)) i
              = some { t₀ with iso_date := d, amount_cents := a, ttype := ty, category := cat, description := de })) := by
  constructor
  · intro ops
    induction ops with
    | nil =>
      intro s i t₀ t₁ _ h0 h1
      rw [List.foldl_nil] at h1
      rw [h0] at h1
      cases h1
      exact ⟨id, rfl⟩
    | cons op rest ih =>
      intro s i t₀ t₁ hWF h0 h1
      rw [List.foldl_cons] at h1
      cases hmid : Database.findTx (Database.applyOp s op) i with
      | none =>
        exfalso
        have hi : i ≤ s.seq := by
          have hmem := List.mem_of_find?_eq_some h0
          have hpred := List.find?_some h0
          have hid : t₀.id = i := by simpa using hpred
          rw [← hid]
          exact hWF t₀ hmem
        rw [findTx_none_fold rest _ (applyOp_WF hWF op) i
          (le_trans hi (seq_le_applyOp s op)) hmid] at h1
        cases h1
      | some tm =>
        have hstep := applyOp_pres s op i t₀ tm h0 hmid
        have hrest := ih (Database.applyOp s op) i tm t₁ (applyOp_WF hWF op) hmid h1
        exact ⟨fun hs => hrest.1 (hstep.1 hs), hrest.2.trans hstep.2⟩
  · intro s i d a ty cat de
    constructor
    · intro j hji
      unfold Database.findTx Database.applyOp Database.update_tx
      rw [findTx_map_pres (fun t => by by_cases h : t.id = i <;> simp [h]) j]
      cases hf : s.rows.find? (fun t => t.id = j) with
      | none => rfl
      | some t =>
        have hid : t.id = j := by simpa using List.find?_some hf
        simp only [Option.map_some']
        rw [if_neg (by rw [hid]; exact hji)]
    · intro t₀ h0
      unfold Database.findTx Database.applyOp Database.update_tx
      rw [findTx_map_pres (fun t => by by_cases h : t.id = i <;> simp [h]) i]
      unfold Database.findTx at h0
      rw [h0]
      have hid : t₀.id = i := by simpa using List.find?_some h0
      simp only [Option.map_some']
      rw [if_pos hid]

theorem c3_witness :
    Database.WF (⟨[txA], 1⟩ : Database.WebStore)
    ∧ Database.findTx ⟨[txA], 1⟩ 1 = some txA
    ∧ Database.findTx ([Database.Op.markSynced [1]].foldl Database.applyOp ⟨[txA], 1⟩) 1
        = some { txA with synced := true }
    ∧ ((txA.synced = true → ({ txA with synced := true } : Tx).synced = true)
        ∧ ({ txA with synced := true } : Tx).created_at = txA.created_at) :=
  ⟨by unfold Database.WF; decide, rfl, rfl,
   c3_synced_created_invariants.1 [Database.Op.markSynced [1]] ⟨[txA], 1⟩ 1 txA
     { txA with synced := true } (by unfold Database.WF; decide) rfl rfl⟩
